import Mathlib

/-!
Verification of the contact-management single-page application
(src/src/App.jsx) against its natural-language specification.

The React component's state handlers are pure functions of their inputs
apart from the `setX` state writes and the network calls; we embed each
handler as a Lean function from the state it reads to the state it writes,
together with the list of network requests it issues and the alerts it
raises.  JavaScript numbers used as identifiers are modelled as Nat
(`null` as `Option.none`); JSON payloads are modelled structurally.
-/

namespace AddressBook

/-- A contact method entry, App.jsx data shape: an object with fields
type and val (both strings). -/
structure ContactMethod where
  type : String
  val : String
deriving Repr, DecidableEq

/-- A contact record as held in the contacts state (App.jsx lines 19-24,
53-56): id (null for an unsaved draft, a number otherwise), name, isFav,
and an ordered list of methods. -/
structure Contact where
  id : Option Nat
  name : String
  isFav : Bool
  methods : List ContactMethod
deriving Repr, DecidableEq

/-- The two view states of the component (App.jsx line 14). -/
inductive View where
  | list
  | form
deriving Repr, DecidableEq

/-! ## Filter and sort (App.jsx lines 232-238, claim C1) -/

/-- Leading-segment test on character lists (the positional check behind
JavaScript's String.prototype.includes). -/
def startsWith : List Char → List Char → Bool
  | [], _ => true
  | _ :: _, [] => false
  | a :: as, b :: bs => a == b && startsWith as bs

/-- Substring containment on character lists: the pattern occurs starting
at some position.  This is the semantics of String.prototype.includes. -/
def containsSeq (pat : List Char) : List Char → Bool
  | [] => startsWith pat []
  | b :: rest => startsWith pat (b :: rest) || containsSeq pat rest

/-- The filter predicate of App.jsx lines 233-237: case-insensitive
substring match of the search string against the name, and, when the
collection toggle is on, membership in the favorites. -/
def matchesFilter (search : String) (showCollection : Bool) (c : Contact) : Bool :=
  containsSeq (String.toLower search).toList (String.toLower c.name).toList
    && (if showCollection then c.isFav else true)

/-- The comparator of App.jsx line 238:
(a, b) => (b.isFav === a.isFav) ? 0 : b.isFav ? 1 : -1. -/
def favCompare (a b : Contact) : Int :=
  if b.isFav == a.isFav then 0 else if b.isFav then 1 else -1

/-- One step of a stable sort by favCompare: insert a into an already
sorted list, placing a before the first element it does not have to
follow.  Earlier elements are inserted on top of later ones, so
comparator ties keep their original relative order — exactly the
guarantee ECMAScript 2019 gives for Array.prototype.sort with a
consistent comparator. -/
def sortedInsert (a : Contact) : List Contact → List Contact
  | [] => [a]
  | b :: l => if favCompare a b ≤ 0 then a :: b :: l else b :: sortedInsert a l

/-- Stable sort by the favCompare comparator, modelling the .sort call on
App.jsx line 238. -/
def stableSortByFav : List Contact → List Contact
  | [] => []
  | a :: l => sortedInsert a (stableSortByFav l)

/-- filteredContacts, App.jsx lines 232-238: filter by search text and
collection mode, then sort favorites first. -/
def filteredContacts (contacts : List Contact) (search : String)
    (showCollection : Bool) : List Contact :=
  stableSortByFav (contacts.filter (matchesFilter search showCollection))

lemma favCompare_le_of_fav (a b : Contact) (h : a.isFav = true) :
    favCompare a b ≤ 0 := by
  unfold favCompare
  rcases hb : b.isFav <;> simp [hb, h]

lemma favCompare_not_le (a b : Contact) (ha : a.isFav = false)
    (hb : b.isFav = true) : ¬ favCompare a b ≤ 0 := by
  unfold favCompare
  simp [ha, hb]

lemma favCompare_le_of_not_fav (a b : Contact) (ha : a.isFav = false)
    (hb : b.isFav = false) : favCompare a b ≤ 0 := by
  unfold favCompare
  simp [ha, hb]

/-- Inserting an element that compares after everything in the first block
skips past that block. -/
lemma sortedInsert_append (a : Contact) (F N : List Contact)
    (h : ∀ b ∈ F, ¬ favCompare a b ≤ 0) :
    sortedInsert a (F ++ N) = F ++ sortedInsert a N := by
  induction F with
  | nil => rfl
  | cons b F ih =>
    have hb : ¬ favCompare a b ≤ 0 := h b (by simp)
    simp only [List.cons_append, sortedInsert, if_neg hb]
    exact congrArg (fun l => b :: l) (ih (fun x hx => h x (by simp [hx])))

/-- Inserting an element that compares before the head goes to the front. -/
lemma sortedInsert_front (a : Contact) (N : List Contact)
    (h : ∀ b ∈ N, favCompare a b ≤ 0) :
    sortedInsert a N = a :: N := by
  cases N with
  | nil => rfl
  | cons b l => simp [sortedInsert, h b (by simp)]

/-- The stable sort by favCompare computes exactly the stable partition:
favorites in their original order, then non-favorites in theirs. -/
lemma stableSortByFav_eq_partition (l : List Contact) :
    stableSortByFav l
      = l.filter (fun c => c.isFav) ++ l.filter (fun c => !c.isFav) := by
  induction l with
  | nil => rfl
  | cons a l ih =>
    rcases ha : a.isFav with hfa | hfa
    · -- a is not a favorite: it skips the favorites block and lands in
      -- front of the non-favorites block.
      have hskip : ∀ b ∈ l.filter (fun c => c.isFav), ¬ favCompare a b ≤ 0 := by
        intro b hb
        exact favCompare_not_le a b ha (by simpa using (List.mem_filter.mp hb).2)
      have hfront : ∀ b ∈ l.filter (fun c => !c.isFav), favCompare a b ≤ 0 := by
        intro b hb
        have : b.isFav = false := by simpa using (List.mem_filter.mp hb).2
        exact favCompare_le_of_not_fav a b ha this
      simp only [stableSortByFav, ih, sortedInsert_append a _ _ hskip,
        sortedInsert_front a _ hfront]
      simp [List.filter_cons, ha]
    · -- a is a favorite: it goes straight to the front.
      have hfront : ∀ b ∈ l.filter (fun c => c.isFav) ++ l.filter (fun c => !c.isFav),
          favCompare a b ≤ 0 := fun b _ => favCompare_le_of_fav a b ha
      simp only [stableSortByFav, ih, sortedInsert_front a _ hfront]
      simp [List.filter_cons, ha]

/-- C1: for every in-memory collection, search string, and collection-mode
flag, the displayed list is exactly the contacts whose lowercased name
contains the lowercased search string as a substring and (when
collection-mode is on) whose isFav is true, ordered with all favorites
before all non-favorites while preserving the prior relative order within
each of the two groups. -/
theorem filteredContacts_stable_partition (contacts : List Contact)
    (search : String) (mode : Bool) :
    filteredContacts contacts search mode
      = (contacts.filter (fun c =>
            containsSeq (String.toLower search).toList (String.toLower c.name).toList
              && (!mode || c.isFav))).filter (fun c => c.isFav)
        ++ (contacts.filter (fun c =>
            containsSeq (String.toLower search).toList (String.toLower c.name).toList
              && (!mode || c.isFav))).filter (fun c => !c.isFav) := by
  have hpred : ∀ c : Contact, matchesFilter search mode c
      = (containsSeq (String.toLower search).toList (String.toLower c.name).toList
          && (!mode || c.isFav)) := by
    intro c
    unfold matchesFilter
    cases mode <;> cases c.isFav <;> simp
  unfold filteredContacts
  rw [stableSortByFav_eq_partition]
  congr 2 <;> exact List.filter_congr (fun c _ => hpred c)

/-! ## JSON payloads and network requests -/

/-- Structural model of the JSON values this client serializes with
JSON.stringify.  Identifiers are numbers; null models the null id of an
unsaved draft. -/
inductive Json where
  | null
  | bool (b : Bool)
  | num (n : Nat)
  | str (s : String)
  | arr (xs : List Json)
  | obj (fields : List (String × Json))

/-- The keys of a JSON object, in serialization order. -/
def jsonKeys : Json → List String
  | Json.obj fields => fields.map (fun p => p.1)
  | _ => []

/-- A network request issued through fetch against /api/contacts. -/
inductive Request where
  | fetchAll
  | post (body : Json)
  | put (id : Option Nat) (body : Json)
  | del (id : Option Nat)

/-- JSON.stringify of a method object, field order type then val. -/
def methodJson (m : ContactMethod) : Json :=
  Json.obj [("type", Json.str m.type), ("val", Json.str m.val)]

/-- JSON.stringify of a contact record in the field order of the formData
literal (App.jsx lines 19-24): id, name, isFav, methods.  A null id is
kept by JSON.stringify (only undefined is dropped), so the id key is
always present. -/
def contactJson (c : Contact) : Json :=
  Json.obj
    [("id", match c.id with | none => Json.null | some n => Json.num n),
     ("name", Json.str c.name),
     ("isFav", Json.bool c.isFav),
     ("methods", Json.arr (c.methods.map methodJson))]

/-! ## saveContact (App.jsx lines 64-99, claims C4 and C7) -/

/-- The outcome of one saveContact invocation: the contacts state and view
after its synchronous part, the requests it issues, and the alerts it
raises.  (On a successful response it additionally refetches the list;
that happens after the states below are already visible.) -/
structure SaveResult where
  contacts : List Contact
  view : View
  requests : List Request
  alerts : List String

/-- saveContact, App.jsx lines 64-99.  The now argument stands for
Date.now().  An empty name alerts and returns at once; otherwise the
record is optimistically written to the contacts state (update in place
for an existing id, append with a synthesized id for a draft), the view
switches to list, and a PUT or POST is issued whose body is
JSON.stringify(formData) — the formData object itself, not the
id-synthesized copy. -/
def saveContact (contacts : List Contact) (view : View) (formData : Contact)
    (now : Nat) : SaveResult :=
  if formData.name = "" then
    { contacts := contacts, view := view, requests := [],
      alerts := ["Name is required"] }
  else
    match formData.id with
    | some i =>
        { contacts := contacts.map (fun c => if c.id == some i then formData else c),
          view := View.list,
          requests := [Request.put (some i) (contactJson formData)],
          alerts := [] }
    | none =>
        { contacts := contacts ++ [{ formData with id := some now }],
          view := View.list,
          requests := [Request.post (contactJson formData)],
          alerts := [] }

/-- C7: for every draft whose name is the empty string, Save rejects with
a user-visible prompt, the draft is never appended to (or replaced in)
the collection, no network call is issued, and the view remains on form. -/
theorem saveContact_empty_name (contacts : List Contact) (formData : Contact)
    (now : Nat) (h : formData.name = "") :
    saveContact contacts View.form formData now
      = { contacts := contacts, view := View.form, requests := [],
          alerts := ["Name is required"] } := by
  unfold saveContact
  rw [if_pos h]

/-- Witness for C7 at a concrete empty-named draft. -/
theorem saveContact_empty_name_witness :
    saveContact [] View.form
        { id := none, name := "", isFav := false,
          methods := [{ type := "Phone", val := "" }] } 7
      = { contacts := [], view := View.form, requests := [],
          alerts := ["Name is required"] } :=
  saveContact_empty_name [] _ 7 rfl

/-- A concrete draft with no identifier, used to exhibit the POST body
actually sent on create. -/
def draftAnn : Contact :=
  { id := none, name := "Ann", isFav := false,
    methods := [{ type := "Phone", val := "1" }] }

/-- C4 counterexample: saving a draft with no identifier sends a POST
whose body is JSON.stringify(formData), and that body does contain an id
field (with value null) — it is not the contact JSON minus id. -/
theorem saveContact_post_body_has_id_field :
    (saveContact [] View.form draftAnn 99).requests
        = [Request.post (contactJson draftAnn)]
      ∧ jsonKeys (contactJson draftAnn) = ["id", "name", "isFav", "methods"]
      ∧ "id" ∈ jsonKeys (contactJson draftAnn) := by
  refine ⟨rfl, rfl, ?_⟩
  simp [contactJson, jsonKeys, draftAnn]

/-! ## Spreadsheet bridge (App.jsx lines 166-229, claims C2, C6, C9)

A spreadsheet row is a JavaScript object keyed by column-name strings.
The only keys this program ever writes or reads are the strings
"Full Name", "Is Favorite", "Method N Type" and "Method N Value" with N a
decimal numeral; since the decimal rendering of naturals is injective,
those key strings are in bijection with the inductive type below, and we
key rows by it.  Cell values are strings; an absent key models an
undefined cell (sheet_to_json omits blank cells). -/

inductive CellKey where
  | fullName
  | isFavorite
  | methodType (i : Nat)
  | methodVal (i : Nat)
deriving Repr, DecidableEq

/-- A row: an association list of cells with distinct keys (first match
wins, as for a JavaScript object built by distinct assignments). -/
abbrev Row := List (CellKey × String)

/-- Reading a cell of a row; none models undefined. -/
def cellGet (k : CellKey) : Row → Option String
  | [] => none
  | kv :: rest => if kv.1 = k then some kv.2 else cellGet k rest

/-- The per-method cells written by handleExport's forEach (App.jsx lines
170-173): for the method at 0-based position j, the two cells
Method (j+1) Type and Method (j+1) Value.  The i argument is the 1-based
index of the first method of the list. -/
def methodCells : List ContactMethod → Nat → Row
  | [], _ => []
  | m :: ms, i =>
      (CellKey.methodType i, m.type) :: (CellKey.methodVal i, m.val)
        :: methodCells ms (i + 1)

/-- One exported row (App.jsx lines 168-175): Full Name, Is Favorite as
Yes/No, then the method cells. -/
def exportRow (c : Contact) : Row :=
  (CellKey.fullName, c.name)
    :: (CellKey.isFavorite, if c.isFav then "Yes" else "No")
    :: methodCells c.methods 1

/-- handleExport's data array (App.jsx line 168): one row per contact. -/
def exportRows (contacts : List Contact) : List Row :=
  contacts.map exportRow

/-- The contact reconstructed from one imported row, before an identifier
is synthesized (the newContact object of App.jsx lines 205-209).  The
name is the raw Full Name cell, possibly undefined. -/
structure ImportedContact where
  name : Option String
  isFav : Bool
  methods : List ContactMethod
deriving Repr, DecidableEq

/-- The method scan of handleImport (App.jsx lines 198-203): starting at
column index i, while the Method i Type cell is truthy (present and
non-empty), emit a method pairing it with the Method i Value cell
(empty string when absent), and move to i+1.  Each successful step
consumes a distinct present key of the row, so the loop performs at most
row-length iterations; fuel of row-length + 1 is enough to run it to its
exit condition. -/
def scanMethods (row : Row) : Nat → Nat → List ContactMethod
  | 0, _ => []
  | fuel + 1, i =>
      match cellGet (CellKey.methodType i) row with
      | none => []
      | some t =>
          if t = "" then []
          else
            { type := t, val := (cellGet (CellKey.methodVal i) row).getD "" }
              :: scanMethods row fuel (i + 1)

/-- The reconstruction of one row of handleImport's loop body (App.jsx
lines 197-209). -/
def importRow (row : Row) : ImportedContact :=
  { name := cellGet CellKey.fullName row,
    isFav := cellGet CellKey.isFavorite row == some "Yes",
    methods := scanMethods row (row.length + 1) 1 }

/-- JSON.stringify of the newContact object of App.jsx lines 205-209:
field order name, isFav, methods, and no id key at all.  An undefined
name is dropped by JSON.stringify. -/
def importedJson (c : ImportedContact) : Json :=
  Json.obj
    ((match c.name with
      | some n => [("name", Json.str n)]
      | none => [])
      ++ [("isFav", Json.bool c.isFav),
          ("methods", Json.arr (c.methods.map methodJson))])

/-! ### Reading the method columns back -/

lemma cellGet_append_of_none (k : CellKey) (l1 l2 : Row)
    (h : cellGet k l1 = none) : cellGet k (l1 ++ l2) = cellGet k l2 := by
  induction l1 with
  | nil => rfl
  | cons kv l1 ih =>
    by_cases hk : kv.1 = k
    · simp [cellGet, hk] at h
    · simp only [cellGet, if_neg hk, List.cons_append] at h ⊢
      exact ih h

lemma cellGet_append_of_some (k : CellKey) (l1 l2 : Row) (v : String)
    (h : cellGet k l1 = some v) : cellGet k (l1 ++ l2) = some v := by
  induction l1 with
  | nil => simp [cellGet] at h
  | cons kv l1 ih =>
    by_cases hk : kv.1 = k
    · simp only [cellGet, if_pos hk, List.cons_append] at h ⊢
      exact h
    · simp only [cellGet, if_neg hk, List.cons_append] at h ⊢
      exact ih h

/-- The optional Method i Value cell of a row: present when the sheet has
a value there, absent when the cell is blank (the codec omits blanks). -/
def valCell (i : Nat) : Option String → Row
  | some s => [(CellKey.methodVal i, s)]
  | none => []

/-- The general layout of method columns in a row: for each entry, a
Method i Type cell, optionally a Method i Value cell, then the later
columns.  The export layout is the special case where every value cell
is present. -/
def rowMethodCells : List (String × Option String) → Nat → Row
  | [], _ => []
  | tv :: ms, i =>
      (CellKey.methodType i, tv.1) :: (valCell i tv.2 ++ rowMethodCells ms (i + 1))

lemma methodCells_eq_rowMethodCells (ms : List ContactMethod) (i : Nat) :
    methodCells ms i = rowMethodCells (ms.map (fun m => (m.type, some m.val))) i := by
  induction ms generalizing i with
  | nil => rfl
  | cons m ms ih => simp [methodCells, rowMethodCells, valCell, ih]

lemma rowMethodCells_cellGet_lt (ms : List (String × Option String))
    (i j : Nat) (h : j < i) :
    cellGet (CellKey.methodType j) (rowMethodCells ms i) = none
      ∧ cellGet (CellKey.methodVal j) (rowMethodCells ms i) = none := by
  induction ms generalizing i with
  | nil => exact ⟨rfl, rfl⟩
  | cons tv ms ih =>
    have hij : i ≠ j := by omega
    have hrec := ih (i + 1) (by omega)
    cases htv : tv.2 with
    | none => simpa [rowMethodCells, valCell, cellGet, htv, hij] using hrec
    | some s => simpa [rowMethodCells, valCell, cellGet, htv, hij] using hrec

lemma rowMethodCells_length_ge (ms : List (String × Option String)) (i : Nat) :
    ms.length ≤ (rowMethodCells ms i).length := by
  induction ms generalizing i with
  | nil => simp [rowMethodCells]
  | cons tv ms ih =>
    have := ih (i + 1)
    cases htv : tv.2 <;> simp [rowMethodCells, valCell, htv] <;> omega

/-- The central import-scan lemma: scanning from column i over a row made
of a block with no method columns at indices ≥ i followed by the method
columns laid out from i recovers exactly the listed methods, provided
every type cell is non-empty (truthy) and the fuel covers the list. -/
lemma scanMethods_layout (ms : List (String × Option String)) :
    ∀ (i fuel : Nat) (pre : Row),
      (∀ j, i ≤ j → cellGet (CellKey.methodType j) pre = none
        ∧ cellGet (CellKey.methodVal j) pre = none) →
      (∀ p ∈ ms, p.1 ≠ "") →
      ms.length < fuel →
      scanMethods (pre ++ rowMethodCells ms i) fuel i
        = ms.map (fun p => { type := p.1, val := p.2.getD "" }) := by
  induction ms with
  | nil =>
    intro i fuel pre hpre _ hfuel
    cases fuel with
    | zero => omega
    | succ fuel =>
      simp [scanMethods, rowMethodCells, (hpre i (Nat.le_refl i)).1]
  | cons tv ms ih =>
    intro i fuel pre hpre hne hfuel
    cases fuel with
    | zero => simp at hfuel
    | succ fuel =>
      rcases tv with ⟨t, v⟩
      have ht : t ≠ "" := hne (t, v) (by simp)
      have hpret := (hpre i (Nat.le_refl i)).1
      have hprev := (hpre i (Nat.le_refl i)).2
      have htype : cellGet (CellKey.methodType i)
          (pre ++ rowMethodCells ((t, v) :: ms) i) = some t := by
        rw [cellGet_append_of_none _ _ _ hpret]
        simp [rowMethodCells, cellGet]
      have hval : cellGet (CellKey.methodVal i)
          (pre ++ rowMethodCells ((t, v) :: ms) i) = v := by
        rw [cellGet_append_of_none _ _ _ hprev]
        cases v with
        | some s => simp [rowMethodCells, valCell, cellGet]
        | none =>
          simpa [rowMethodCells, valCell, cellGet] using
            (rowMethodCells_cellGet_lt ms (i + 1) i (by omega)).2
      have hsplit : pre ++ rowMethodCells ((t, v) :: ms) i
          = (pre ++ ((CellKey.methodType i, t) :: valCell i v))
            ++ rowMethodCells ms (i + 1) := by
        simp [rowMethodCells, List.append_assoc]
      have hpre2 : ∀ j, i + 1 ≤ j →
          cellGet (CellKey.methodType j)
              (pre ++ ((CellKey.methodType i, t) :: valCell i v)) = none
            ∧ cellGet (CellKey.methodVal j)
              (pre ++ ((CellKey.methodType i, t) :: valCell i v)) = none := by
        intro j hj
        have hij : i ≠ j := by omega
        have hp := hpre j (by omega)
        constructor
        · rw [cellGet_append_of_none _ _ _ hp.1]
          cases v <;> simp [valCell, cellGet, hij]
        · rw [cellGet_append_of_none _ _ _ hp.2]
          cases v <;> simp [valCell, cellGet, hij]
      have hrest : scanMethods (pre ++ rowMethodCells ((t, v) :: ms) i) fuel (i + 1)
          = ms.map (fun p => { type := p.1, val := p.2.getD "" }) := by
        rw [hsplit]
        exact ih (i + 1) fuel _ hpre2
          (fun p hp => hne p (by simp [hp])) (by simpa using hfuel)
      simp only [scanMethods, htype, if_neg ht, hval, hrest, List.map_cons]

/-! ### Claim C6: reconstruction of a contact from one imported row -/

/-- A row of the shape the import contract describes: a Full Name cell, an
Is Favorite cell, and method columns numbered from 1, each with a type
cell and an optionally present value cell. -/
def mkImportRow (nameCell favCell : String)
    (ms : List (String × Option String)) : Row :=
  (CellKey.fullName, nameCell) :: (CellKey.isFavorite, favCell)
    :: rowMethodCells ms 1

/-- C6: for every imported spreadsheet row, the reconstructed contact has
name = the row's Full Name cell, isFav = true exactly when the
Is Favorite cell equals Yes (anything else gives false), and methods
obtained by scanning the Method N Type columns sequentially, pairing each
with the corresponding Method N Value (empty string when absent). -/
theorem importRow_reconstruction (nameCell favCell : String)
    (ms : List (String × Option String)) (h : ∀ p ∈ ms, p.1 ≠ "") :
    importRow (mkImportRow nameCell favCell ms)
      = { name := some nameCell,
          isFav := favCell == "Yes",
          methods := ms.map (fun p => { type := p.1, val := p.2.getD "" }) } := by
  have hrow : mkImportRow nameCell favCell ms
      = [(CellKey.fullName, nameCell), (CellKey.isFavorite, favCell)]
        ++ rowMethodCells ms 1 := rfl
  have hpre : ∀ j, 1 ≤ j →
      cellGet (CellKey.methodType j)
          [(CellKey.fullName, nameCell), (CellKey.isFavorite, favCell)] = none
        ∧ cellGet (CellKey.methodVal j)
          [(CellKey.fullName, nameCell), (CellKey.isFavorite, favCell)] = none := by
    intro j _
    constructor <;> simp [cellGet]
  have hfuel : ms.length
      < ([(CellKey.fullName, nameCell), (CellKey.isFavorite, favCell)]
          ++ rowMethodCells ms 1).length + 1 := by
    have := rowMethodCells_length_ge ms 1
    simp only [List.length_append, List.length_cons]
    omega
  have hscan := scanMethods_layout ms 1
    (([(CellKey.fullName, nameCell), (CellKey.isFavorite, favCell)]
        ++ rowMethodCells ms 1).length + 1)
    [(CellKey.fullName, nameCell), (CellKey.isFavorite, favCell)] hpre h hfuel
  unfold importRow
  rw [hrow, hscan]
  simp [cellGet]

/-- Witness for C6 at the row of the specification's example:
Full Name Carl, Is Favorite Yes, Method 1 Type Phone, Method 1 Value 555. -/
theorem importRow_reconstruction_witness :
    importRow (mkImportRow "Carl" "Yes" [("Phone", some "555")])
      = { name := some "Carl", isFav := true,
          methods := [{ type := "Phone", val := "555" }] } := by
  rw [importRow_reconstruction "Carl" "Yes" [("Phone", some "555")] (by decide)]
  decide

/-! ### Claim C2: export then import is the identity on the data -/

/-- The method-type vocabulary of the data model (the four options of the
form's type selector, App.jsx lines 333-336). -/
def validMethodType (t : String) : Prop :=
  t = "Phone" ∨ t = "Email" ∨ t = "Address" ∨ t = "WeChat"

instance (t : String) : Decidable (validMethodType t) := by
  unfold validMethodType
  infer_instance

lemma validMethodType_ne_empty (t : String) (h : validMethodType t) : t ≠ "" := by
  rcases h with h | h | h | h <;> (rw [h]; decide)

/-- Importing the exported row of a single contact recovers its name,
favorite flag, and method sequence, provided no method type is the empty
string (which is the case for the data model's type vocabulary). -/
lemma importRow_exportRow (c : Contact) (h : ∀ m ∈ c.methods, m.type ≠ "") :
    importRow (exportRow c)
      = { name := some c.name, isFav := c.isFav, methods := c.methods } := by
  have hrow : exportRow c
      = [(CellKey.fullName, c.name),
         (CellKey.isFavorite, if c.isFav then "Yes" else "No")]
        ++ rowMethodCells (c.methods.map (fun m => (m.type, some m.val))) 1 := by
    simp [exportRow, methodCells_eq_rowMethodCells]
  have hpre : ∀ j, 1 ≤ j →
      cellGet (CellKey.methodType j)
          [(CellKey.fullName, c.name),
           (CellKey.isFavorite, if c.isFav then "Yes" else "No")] = none
        ∧ cellGet (CellKey.methodVal j)
          [(CellKey.fullName, c.name),
           (CellKey.isFavorite, if c.isFav then "Yes" else "No")] = none := by
    intro j _
    constructor <;> simp [cellGet]
  have hne : ∀ p ∈ c.methods.map (fun m => (m.type, some m.val)), p.1 ≠ "" := by
    intro p hp
    rcases List.mem_map.mp hp with ⟨m, hm, hpm⟩
    rw [← hpm]
    exact h m hm
  have hfuel : (c.methods.map (fun m => (m.type, some m.val))).length
      < ([(CellKey.fullName, c.name),
          (CellKey.isFavorite, if c.isFav then "Yes" else "No")]
          ++ rowMethodCells (c.methods.map (fun m => (m.type, some m.val))) 1).length
        + 1 := by
    have := rowMethodCells_length_ge (c.methods.map (fun m => (m.type, some m.val))) 1
    simp only [List.length_append, List.length_cons]
    omega
  have hscan := scanMethods_layout (c.methods.map (fun m => (m.type, some m.val))) 1
    (([(CellKey.fullName, c.name),
       (CellKey.isFavorite, if c.isFav then "Yes" else "No")]
        ++ rowMethodCells (c.methods.map (fun m => (m.type, some m.val))) 1).length + 1)
    [(CellKey.fullName, c.name),
     (CellKey.isFavorite, if c.isFav then "Yes" else "No")] hpre hne hfuel
  unfold importRow
  rw [hrow, hscan]
  have hmeths : (c.methods.map (fun m => (m.type, some m.val))).map
      (fun p => ({ type := p.1, val := p.2.getD "" } : ContactMethod)) = c.methods := by
    rw [List.map_map]
    exact List.map_id c.methods
  rw [hmeths]
  cases hf : c.isFav <;> simp [cellGet, hf]

/-- C2: exporting a collection to rows and importing those rows yields,
for each contact, a record with identical name, identical isFav, and an
identical ordered sequence of methods (identifiers are not part of the
rows at all).  The hypothesis is the data model's constraint that every
method type is drawn from the fixed vocabulary. -/
theorem export_import_roundtrip (contacts : List Contact)
    (h : ∀ c ∈ contacts, ∀ m ∈ c.methods, validMethodType m.type) :
    (exportRows contacts).map importRow
      = contacts.map (fun c =>
          ({ name := some c.name, isFav := c.isFav,
             methods := c.methods } : ImportedContact)) := by
  unfold exportRows
  rw [List.map_map]
  refine List.map_congr_left ?_
  intro c hc
  exact importRow_exportRow c
    (fun m hm => validMethodType_ne_empty m.type (h c hc m hm))

/-- A concrete two-contact collection used as the round-trip witness. -/
def demoContacts : List Contact :=
  [{ id := some 1, name := "Alice", isFav := true,
     methods := [{ type := "Phone", val := "1" }] },
   { id := some 2, name := "Bob", isFav := false,
     methods := [{ type := "Email", val := "b@x.com" }] }]

/-- Witness for C2 on the concrete two-contact collection. -/
theorem export_import_roundtrip_witness :
    (exportRows demoContacts).map importRow
      = [{ name := some "Alice", isFav := true,
           methods := [{ type := "Phone", val := "1" }] },
         { name := some "Bob", isFav := false,
           methods := [{ type := "Email", val := "b@x.com" }] }] := by
  rw [export_import_roundtrip demoContacts (by decide)]
  decide

/-! ### Claim C9: the bulk-import loop -/

/-- A record as appended to the contacts state by handleImport (App.jsx
line 212): the reconstructed fields spread first, then the synthesized
identifier. -/
structure ImportedRecord where
  name : Option String
  isFav : Bool
  methods : List ContactMethod
  id : Nat
deriving Repr, DecidableEq

/-- The outcome of the per-row loop of handleImport. -/
structure ImportOutcome where
  contacts : List ImportedRecord
  requests : List Request
  count : Nat
  logs : List String

/-- The row loop of handleImport's onload handler (App.jsx lines 196-224).
idGen k models the Date.now() + Math.random() identifier synthesized for
the k-th row (0-based); fails k tells whether the POST for the k-th row
rejects — a rejection is caught and only logged (lines 220-222), after
which count is still incremented. -/
def importLoop (idGen : Nat → Nat) (fails : Nat → Bool) :
    List Row → Nat → List ImportedRecord → ImportOutcome
  | [], _, acc => { contacts := acc, requests := [], count := 0, logs := [] }
  | row :: rows, k, acc =>
      let c := importRow row
      let acc2 := acc ++ [{ name := c.name, isFav := c.isFav,
                            methods := c.methods, id := idGen k }]
      let rest := importLoop idGen fails rows (k + 1) acc2
      { contacts := rest.contacts,
        requests := Request.post (importedJson c) :: rest.requests,
        count := rest.count + 1,
        logs := (if fails k then ["Backend offline, imported locally only"] else [])
          ++ rest.logs }

/-- The result surfaced by handleImport: final contacts state, the
requests issued, the blocking alert of line 225, and the warnings. -/
structure ImportResult where
  contacts : List ImportedRecord
  requests : List Request
  alerts : List String
  logs : List String

/-- handleImport's onload handler over already-parsed rows (App.jsx lines
188-227), starting from the prior contacts state. -/
def handleImport (prior : List ImportedRecord) (rows : List Row)
    (idGen : Nat → Nat) (fails : Nat → Bool) : ImportResult :=
  let out := importLoop idGen fails rows 0 prior
  { contacts := out.contacts,
    requests := out.requests,
    alerts := ["Imported " ++ toString out.count ++ " contacts!"],
    logs := out.logs }

lemma importLoop_contacts (idGen : Nat → Nat) (fails : Nat → Bool)
    (rows : List Row) : ∀ (k : Nat) (acc : List ImportedRecord),
    (importLoop idGen fails rows k acc).contacts
      = acc ++ (List.enumFrom k rows).map (fun p =>
          { name := (importRow p.2).name, isFav := (importRow p.2).isFav,
            methods := (importRow p.2).methods, id := idGen p.1 }) := by
  induction rows with
  | nil => intro k acc; simp [importLoop]
  | cons row rows ih =>
    intro k acc
    simp only [importLoop, ih (k + 1), List.enumFrom, List.map_cons,
      List.append_assoc, List.singleton_append]

lemma importLoop_requests (idGen : Nat → Nat) (fails : Nat → Bool)
    (rows : List Row) : ∀ (k : Nat) (acc : List ImportedRecord),
    (importLoop idGen fails rows k acc).requests
      = rows.map (fun row => Request.post (importedJson (importRow row))) := by
  induction rows with
  | nil => intro k acc; simp [importLoop]
  | cons row rows ih =>
    intro k acc
    simp only [importLoop, ih (k + 1), List.map_cons]

lemma importLoop_count (idGen : Nat → Nat) (fails : Nat → Bool)
    (rows : List Row) : ∀ (k : Nat) (acc : List ImportedRecord),
    (importLoop idGen fails rows k acc).count = rows.length := by
  induction rows with
  | nil => intro k acc; simp [importLoop]
  | cons row rows ih =>
    intro k acc
    simp only [importLoop, ih (k + 1), List.length_cons]

/-- C9: every reconstructed contact is appended to state with a
synthesized identifier and submitted individually to the create endpoint;
the final state, the issued requests, and the closing alert (which
reports the number of rows parsed) do not depend on which submissions
failed — a failed row never aborts the processing of later rows. -/
theorem handleImport_processes_every_row (prior : List ImportedRecord)
    (rows : List Row) (idGen : Nat → Nat) (fails : Nat → Bool) :
    (handleImport prior rows idGen fails).contacts
        = prior ++ rows.enum.map (fun p =>
            { name := (importRow p.2).name, isFav := (importRow p.2).isFav,
              methods := (importRow p.2).methods, id := idGen p.1 })
      ∧ (handleImport prior rows idGen fails).requests
        = rows.map (fun row => Request.post (importedJson (importRow row)))
      ∧ (handleImport prior rows idGen fails).alerts
        = ["Imported " ++ toString rows.length ++ " contacts!"] := by
  refine ⟨?_, ?_, ?_⟩
  · exact importLoop_contacts idGen fails rows 0 prior
  · exact importLoop_requests idGen fails rows 0 prior
  · show ["Imported " ++ toString (importLoop idGen fails rows 0 prior).count
        ++ " contacts!"] = _
    rw [importLoop_count idGen fails rows 0 prior]

/-! ### Claim C4, amended: the bodies of the two create paths -/

/-- C4 amended: for each imported row the POST body is the contact's JSON
without an id field; for saving a draft with no identifier the POST body
is JSON.stringify(formData), which carries an explicit null id field (the
synthesized id is used only locally and never sent). -/
theorem create_request_bodies (contacts : List Contact) (draft : Contact)
    (now : Nat) (row : Row) (h1 : draft.id = none) (h2 : draft.name ≠ "") :
    (saveContact contacts View.form draft now).requests
        = [Request.post (contactJson draft)]
      ∧ jsonKeys (contactJson draft) = ["id", "name", "isFav", "methods"]
      ∧ "id" ∉ jsonKeys (importedJson (importRow row)) := by
  refine ⟨?_, rfl, ?_⟩
  · unfold saveContact
    rw [if_neg h2, h1]
  · cases hn : (importRow row).name with
    | none =>
      simp only [importedJson, jsonKeys, hn, List.nil_append, List.map_cons,
        List.map_nil]
      decide
    | some n =>
      simp only [importedJson, jsonKeys, hn, List.cons_append, List.nil_append,
        List.map_cons, List.map_nil]
      decide

/-- Witness for the amended C4 at a concrete draft and a concrete row. -/
theorem create_request_bodies_witness :
    (saveContact [] View.form draftAnn 99).requests
        = [Request.post (contactJson draftAnn)]
      ∧ jsonKeys (contactJson draftAnn) = ["id", "name", "isFav", "methods"]
      ∧ "id" ∉ jsonKeys (importedJson (importRow [(CellKey.fullName, "Dee")])) :=
  create_request_bodies [] draftAnn 99 [(CellKey.fullName, "Dee")] rfl (by decide)

/-! ### Claim C5: toggling the favorite flag twice -/

/-- toggleFav, App.jsx lines 114-130: flip isFav on a fresh copy of the
record, replace every record with the same id in the contacts state, and
issue a PUT carrying the full mutated record. -/
def toggleFav (contacts : List Contact) (contact : Contact) :
    List Contact × Request :=
  let updated := { contact with isFav := !contact.isFav }
  (contacts.map (fun c => if c.id == contact.id then updated else c),
   Request.put contact.id (contactJson updated))

/-- C5: toggling a contact's favorite flag twice (the second press acts on
the flipped record the first press put on screen) restores the original
record wherever its id occurs — in particular isFav returns to its
original value — and exactly two PUT requests are issued, each carrying
the full mutated record. -/
theorem toggleFav_twice (contacts : List Contact) (c : Contact) :
    (toggleFav (toggleFav contacts c).1 { c with isFav := !c.isFav }).1
        = contacts.map (fun x => if x.id == c.id then c else x)
      ∧ [(toggleFav contacts c).2,
          (toggleFav (toggleFav contacts c).1 { c with isFav := !c.isFav }).2]
        = [Request.put c.id (contactJson { c with isFav := !c.isFav }),
           Request.put c.id (contactJson c)] := by
  have hc : ({ c with isFav := !(!c.isFav) } : Contact) = c := by
    cases c
    simp
  constructor
  · show (toggleFav contacts c).1.map _ = _
    unfold toggleFav
    rw [List.map_map]
    refine List.map_congr_left ?_
    intro x _
    by_cases hx : x.id == c.id <;> simp [Function.comp, hx, hc]
  · unfold toggleFav
    rw [hc]

/-! ### Claim C8: delete asks for confirmation first -/

/-- deleteContact, App.jsx lines 101-112: the confirmed argument is the
answer to the window.confirm prompt.  Declining returns at once;
confirming removes the record from the contacts state and then issues the
DELETE request. -/
def deleteContact (contacts : List Contact) (id : Option Nat)
    (confirmed : Bool) : List Contact × List Request :=
  if confirmed then
    (contacts.filter (fun c => !(c.id == id)), [Request.del id])
  else
    (contacts, [])

/-- The completion handling of the delete fetch (App.jsx lines 107-111):
whether the request succeeds or fails, the contacts state is not touched
again — a failure is only logged. -/
def deleteSettled (contacts : List Contact) (ok : Bool) : List Contact :=
  match ok with
  | true => contacts
  | false => contacts

/-- C8: declining the confirmation leaves the collection unchanged and
issues no request; confirming removes the contact immediately and issues
the DELETE, and the collection is the same before and after the request
settles, whatever its outcome. -/
theorem deleteContact_confirmation (contacts : List Contact) (id : Option Nat)
    (ok : Bool) :
    deleteContact contacts id false = (contacts, [])
      ∧ deleteContact contacts id true
        = (contacts.filter (fun c => !(c.id == id)), [Request.del id])
      ∧ deleteSettled (deleteContact contacts id true).1 ok
        = (deleteContact contacts id true).1 := by
  refine ⟨rfl, rfl, ?_⟩
  cases ok <;> rfl

/-! ### Claim C10: fetch failure and the offline placeholder data -/

/-- The two-record placeholder dataset of App.jsx lines 53-56. -/
def placeholderContacts : List Contact :=
  [{ id := some 1, name := "Alice Chen (Offline)", isFav := true,
     methods := [{ type := "Phone", val := "123-456-7890" }] },
   { id := some 2, name := "Bob Jones (Offline)", isFav := false,
     methods := [{ type := "Email", val := "bob@example.com" }] }]

/-- fetchContacts, App.jsx lines 40-62: a successful response replaces the
contacts state wholesale; a failure substitutes the placeholder dataset
only when the contacts state is empty at that moment, and otherwise
leaves the state alone. -/
def fetchContacts (contacts : List Contact) :
    Option (List Contact) → List Contact
  | some data => data
  | none => if contacts.length = 0 then placeholderContacts else contacts

/-- C10: when fetch-all fails, the collection is replaced by the offline
placeholder dataset only if it is empty at the time of failure; a
non-empty collection is left unchanged by the failed fetch. -/
theorem fetchContacts_failure_fallback (contacts : List Contact) :
    (contacts = [] → fetchContacts contacts none = placeholderContacts)
      ∧ (contacts ≠ [] → fetchContacts contacts none = contacts) := by
  constructor
  · intro h
    rw [h]
    rfl
  · intro h
    unfold fetchContacts
    rw [if_neg (by simpa [List.length_eq_zero] using h)]

/-- Witness for C10 at an empty and at a one-element collection. -/
theorem fetchContacts_failure_fallback_witness :
    fetchContacts [] none = placeholderContacts
      ∧ fetchContacts demoContacts none = demoContacts :=
  ⟨(fetchContacts_failure_fallback []).1 rfl,
   (fetchContacts_failure_fallback demoContacts).2 (by decide)⟩

/-! ### Claim C3: the form draft and its sharing of method objects

JavaScript objects are reference values.  The only objects this component
mutates in place are the method entries: updateMethod (App.jsx lines
140-144) copies the methods array but then assigns through it into the
shared method object (newMethods[index][field] = value).  To capture
that, method objects live in an explicit store addressed by naturals;
contact records and the draft hold addresses.  Records themselves are
never field-assigned (every other edit builds a fresh object with a
spread), so they are modelled by value. -/

/-- A contact record holding references to its method objects. -/
structure ContactRef where
  id : Option Nat
  name : String
  isFav : Bool
  methods : List Nat
deriving Repr, DecidableEq

/-- The component state relevant to the form: the store of method
objects, the contacts state, the draft, and the view. -/
structure FormState where
  store : List ContactMethod
  contacts : List ContactRef
  formData : ContactRef
  view : View
deriving Repr, DecidableEq

/-- openForm(contact) for an existing contact (App.jsx lines 151-153,
162): setFormData(contact) stores the record itself — the draft's methods
are the very same addresses as the contact's — and the view switches to
form. -/
def openFormExisting (s : FormState) (contact : ContactRef) : FormState :=
  { s with formData := contact, view := View.form }

/-- Assignment to one field of a method object. -/
def setMethodField (m : ContactMethod) : Bool → String → ContactMethod
  | true, v => { m with type := v }
  | false, v => { m with val := v }

/-- updateMethod (App.jsx lines 140-144): newMethods copies the address
list, then newMethods[index][field] = value writes through the address at
the given position into the shared method object; the draft is rebuilt
around the copied (identical) address list.  The field argument is true
for type and false for val, the only two field names passed at the call
sites (App.jsx lines 332, 338).  An out-of-range index cannot arise from
the UI, which renders one editor per draft method. -/
def updateMethod (s : FormState) (index : Nat) (field : Bool)
    (value : String) : FormState :=
  match s.formData.methods.get? index with
  | none => s
  | some addr =>
      let old := s.store.getD addr { type := "", val := "" }
      { s with store := s.store.set addr (setMethodField old field value) }

/-- The Cancel button (App.jsx line 345): setView('list') and nothing
else. -/
def cancelForm (s : FormState) : FormState :=
  { s with view := View.list }

/-- The collection as observable in the list view: each contact with its
method references resolved through the store. -/
def resolveContacts (s : FormState) : List (String × Bool × List ContactMethod) :=
  s.contacts.map (fun c =>
    (c.name, c.isFav, c.methods.map (fun a => s.store.getD a { type := "", val := "" })))

/-- A one-contact state whose single method object sits at address 0. -/
def aliasDemoState : FormState :=
  { store := [{ type := "Phone", val := "1" }],
    contacts := [{ id := some 1, name := "Alice", isFav := true, methods := [0] }],
    formData := { id := none, name := "", isFav := false, methods := [] },
    view := View.list }

/-- C3 counterexample: open the form on the existing contact, edit the
value of its first method on the draft, and cancel — the in-memory
collection now shows the edited value, so it is not unchanged. -/
theorem cancelled_edit_mutates_collection :
    resolveContacts
        (cancelForm (updateMethod
          (openFormExisting aliasDemoState
            { id := some 1, name := "Alice", isFav := true, methods := [0] })
          0 false "2"))
      ≠ resolveContacts aliasDemoState := by
  have h1 : resolveContacts
      (cancelForm (updateMethod
        (openFormExisting aliasDemoState
          { id := some 1, name := "Alice", isFav := true, methods := [0] })
        0 false "2"))
      = [("Alice", true, [{ type := "Phone", val := "2" }])] := rfl
  have h2 : resolveContacts aliasDemoState
      = [("Alice", true, [{ type := "Phone", val := "1" }])] := rfl
  rw [h1, h2]
  decide

/-- C3 amended: opening the form for an existing contact seeds the draft
with the contact record itself (its method objects are shared, not
copied); Cancel only returns to list view and performs no mutation of its
own; but a method edit made while the form was open has already written
through the shared address, so after open-edit-cancel the contact list
and view are as before except that the store carries the edit at the
contact's own method address. -/
theorem openForm_edit_cancel_effect (s : FormState) (contact : ContactRef)
    (index : Nat) (field : Bool) (value : String) :
    (openFormExisting s contact).formData = contact
      ∧ (cancelForm s).store = s.store
      ∧ (cancelForm s).contacts = s.contacts
      ∧ (cancelForm s).view = View.list
      ∧ (cancelForm (updateMethod (openFormExisting s contact) index field value)).contacts
        = s.contacts
      ∧ (cancelForm (updateMethod (openFormExisting s contact) index field value)).view
        = View.list
      ∧ (cancelForm (updateMethod (openFormExisting s contact) index field value)).store
        = (match contact.methods.get? index with
           | none => s.store
           | some addr => s.store.set addr
               (setMethodField (s.store.getD addr { type := "", val := "" })
                 field value)) := by
  cases h : contact.methods.get? index with
  | none =>
    rw [List.get?_eq_getElem?] at h
    refine ⟨rfl, rfl, rfl, rfl, ?_, ?_, ?_⟩ <;>
      simp [openFormExisting, updateMethod, cancelForm, h]
  | some addr =>
    rw [List.get?_eq_getElem?] at h
    refine ⟨rfl, rfl, rfl, rfl, ?_, ?_, ?_⟩ <;>
      simp [openFormExisting, updateMethod, cancelForm, h]

end AddressBook
